import Mathlib

/-!
Verification of the socketioxide broadcast/room core and packet codec.

Shallow embedding of `src/socketio-server/src/adapter.rs` and
`src/socketio-server/src/packet.rs`:

* The `LocalAdapter` room registry (`RwLock<HashMap<String, HashSet<i64>>>`)
  is embedded as an association list from room name to a duplicate-free list
  of socket ids, with the HashMap first-match semantics made explicit.
* The namespace lookup (`ns.get_socket` / `ns.get_sockets`, an external
  collaborator defined outside this repository) is embedded as the list of
  live socket ids of the namespace.
* `serde_json` values are embedded as the inductive `JVal` (numbers are
  modelled as integers; the float fragment of JSON is out of scope, and
  objects are association lists standing for serde's key map).

The file is organised as: definitions first, then lemmas and the claim
theorems.
-/

namespace Socketioxide

/-- `pub type Room = String;` from adapter.rs. -/
abbrev Room := String

/-- `enum BroadcastFlags { Local, Broadcast, Timeout(Duration) }` from
adapter.rs; the `Duration` payload is embedded as a number of milliseconds. -/
inductive BroadcastFlags where
  | Local : BroadcastFlags
  | Broadcast : BroadcastFlags
  | Timeout : Nat → BroadcastFlags
deriving DecidableEq, BEq, Repr

/-- `struct BroadcastOptions` from adapter.rs.  The `HashSet<BroadcastFlags>`
is embedded as a list queried by membership, matching the only use the code
makes of it (`flags.contains` and the timeout scan). -/
structure BroadcastOptions where
  flags : List BroadcastFlags
  rooms : List Room
  except : List Room
  sid : Int
deriving Repr

/-- The room registry `HashMap<String, HashSet<i64>>` of `LocalAdapter`,
as an association list; member sets are duplicate-free lists. -/
abbrev Registry := List (Room × List Int)

/-- `rooms_map.get(room)` — first entry with the given key. -/
def regGet (reg : Registry) (room : Room) : Option (List Int) :=
  (reg.find? (fun p => p.1 == room)).map (fun p => p.2)

/-- `HashSet::insert` on a member set: add the sid if it is absent. -/
def hsInsert (s : List Int) (sid : Int) : List Int :=
  if s.contains sid then s else sid :: s

/-- `rooms_map.entry(room).or_insert_with(HashSet::new).insert(sid)`:
insert `sid` into the room's set, creating the entry if absent. -/
def entryInsert : Registry → Room → Int → Registry
  | [], room, sid => [(room, [sid])]
  | (r, s) :: tl, room, sid =>
    if r = room then (r, hsInsert s sid) :: tl
    else (r, s) :: entryInsert tl room sid

/-- `LocalAdapter::add_all(sid, rooms)`. -/
def add_all (reg : Registry) (sid : Int) (rooms : List Room) : Registry :=
  rooms.foldl (fun acc room => entryInsert acc room sid) reg

/-- `if let Some(room) = rooms_map.get_mut(&room) { room.remove(&sid); }`:
remove `sid` from the named room's set if the room exists. -/
def delRoom : Registry → Room → Int → Registry
  | [], _, _ => []
  | (r, s) :: tl, room, sid =>
    if r = room then (r, s.filter (fun x => x ≠ sid)) :: tl
    else (r, s) :: delRoom tl room sid

/-- `LocalAdapter::del(sid, rooms)`. -/
def del (reg : Registry) (sid : Int) (rooms : List Room) : Registry :=
  rooms.foldl (fun acc room => delRoom acc room sid) reg

/-- `LocalAdapter::del_all(sid)`: remove the sid from every room's set;
room entries themselves are kept. -/
def del_all (reg : Registry) (sid : Int) : Registry :=
  reg.map (fun p => (p.1, p.2.filter (fun x => x ≠ sid)))

/-- `LocalAdapter::socket_rooms(sid)`: the rooms whose member set contains
the sid, by scanning all rooms. -/
def socket_rooms (reg : Registry) (sid : Int) : List Room :=
  (reg.filter (fun p => p.2.contains sid)).map (fun p => p.1)

/-- Room keys of the registry, in entry order. -/
def regKeys (reg : Registry) : List Room := reg.map (fun p => p.1)

/-- `ns.get_socket(sid)` of the external namespace lookup: the namespace is
embedded as its list of live socket ids, and a live handle as the id itself. -/
def get_socket (nsl : List Int) (sid : Int) : Option Int :=
  if nsl.contains sid then some sid else none

/-- `LocalAdapter::get_except_sids(except)`: union of the member sets of the
rooms named in `except` (`HashSet::extend`, embedded as dedup-preserving
appends); rooms not present contribute nothing. -/
def get_except_sids (reg : Registry) (except : List Room) : List Int :=
  except.foldl
    (fun acc room =>
      match regGet reg room with
      | some m => m.foldl (fun a sid => if a.contains sid then a else a ++ [sid]) acc
      | none => acc)
    []

/-- `Itertools::unique()`: keep the first occurrence of each element. -/
def dedupFirstAux : List Int → List Int → List Int
  | _, [] => []
  | seen, x :: tl =>
    if seen.contains x then dedupFirstAux seen tl
    else x :: dedupFirstAux (x :: seen) tl

def dedupFirst (l : List Int) : List Int := dedupFirstAux [] l

/-- `LocalAdapter::apply_opts(opts)` — the broadcast matcher.  The filter in
the rooms branch is the literal source condition
`!except.contains(*sid) && (opts.flags.contains(&Broadcast) && **sid != opts.sid)`;
`ns.upgrade().unwrap()` is assumed to succeed (the namespace back-reference
invariant), so the live namespace `nsl` is passed in directly. -/
def apply_opts (reg : Registry) (nsl : List Int) (opts : BroadcastOptions) : List Int :=
  let rooms := opts.rooms
  let except := get_except_sids reg opts.except
  if rooms.length > 0 then
    (dedupFirst
        (((reg.filter (fun p => rooms.contains p.1)).flatMap (fun p => p.2)).filter
          (fun sid =>
            !except.contains sid &&
              (opts.flags.contains BroadcastFlags.Broadcast && sid != opts.sid)))).filterMap
      (get_socket nsl)
  else if opts.flags.contains BroadcastFlags.Broadcast then
    nsl.filter (fun sid => !except.contains sid)
  else
    match get_socket nsl opts.sid with
    | some s => [s]
    | none => []

/-- A resolved target socket for delivery: its id and the outcome its
`send` would produce (`Socket::send -> Result<(), Error>`, with the opaque
error embedded as a numeric code). -/
structure DSocket where
  sid : Int
  sendResult : Except Nat Unit

/-- The delivery loop of `LocalAdapter::broadcast`:
`sockets.into_iter().map(|s| s.send(..)).collect::<Result<(), Error>>()`.
Rust's `FromIterator` impl for `Result` stops at the first `Err` and takes
no further elements from the (lazy) `map`, so sends after the first failing
one are never attempted.  The first component records the ids whose `send`
was actually invoked, in order; the second is the collected result. -/
def collectSends : List DSocket → List Int × Except Nat Unit
  | [] => ([], Except.ok ())
  | s :: tl =>
    match s.sendResult with
    | Except.error e => ([s.sid], Except.error e)
    | Except.ok _ =>
      let rest := collectSends tl
      (s.sid :: rest.1, rest.2)

/-- One membership mutation of the adapter, for stating invariants over
arbitrary operation sequences. -/
inductive AdapterOp where
  | addAll (sid : Int) (rooms : List Room)
  | delOp (sid : Int) (rooms : List Room)
  | delAllOp (sid : Int)

/-- Apply one adapter operation to the registry. -/
def applyOp (reg : Registry) : AdapterOp → Registry
  | AdapterOp.addAll sid rooms => add_all reg sid rooms
  | AdapterOp.delOp sid rooms => del reg sid rooms
  | AdapterOp.delAllOp sid => del_all reg sid

/-- Run a sequence of adapter operations. -/
def runOps (reg : Registry) (ops : List AdapterOp) : Registry :=
  ops.foldl applyOp reg

/-! ### Packet codec definitions: JSON model (serde_json restricted to
integer numbers and whitespace-free input), wire grammar, encode, decode -/

mutual
inductive JVal : Type where
  | null : JVal
  | bool : Bool → JVal
  | num : Int → JVal
  | str : String → JVal
  | arr : JArr → JVal
  | obj : JObj → JVal
inductive JArr : Type where
  | nil : JArr
  | cons : JVal → JArr → JArr
inductive JObj : Type where
  | nil : JObj
  | cons : String → JVal → JObj → JObj
end

def digitChar : Nat → Char
  | 0 => '0' | 1 => '1' | 2 => '2' | 3 => '3' | 4 => '4'
  | 5 => '5' | 6 => '6' | 7 => '7' | 8 => '8' | 9 => '9'
  | _ => '*'

def hexDigChar (n : Nat) : Char :=
  if n < 10 then digitChar n
  else if n = 10 then 'a' else if n = 11 then 'b' else if n = 12 then 'c'
  else if n = 13 then 'd' else if n = 14 then 'e' else if n = 15 then 'f'
  else '*'

def natCharsAux : Nat → Nat → List Char
  | 0, _ => []
  | Nat.succ fuel, n =>
    if n < 10 then [digitChar n]
    else natCharsAux fuel (n / 10) ++ [digitChar (n % 10)]

def natChars (n : Nat) : List Char := natCharsAux (n + 1) n

def intChars (n : Int) : List Char :=
  if n < 0 then '-' :: natChars n.natAbs else natChars n.toNat

def escChar (c : Char) : List Char :=
  if c = '\x22' then ['\\', '\x22']
  else if c = '\\' then ['\\', '\\']
  else if c = '\x08' then ['\\', 'b']
  else if c = '\x09' then ['\\', 't']
  else if c = '\x0a' then ['\\', 'n']
  else if c = '\x0c' then ['\\', 'f']
  else if c = '\x0d' then ['\\', 'r']
  else if c.toNat < 32 then
    ['\\', 'u', '0', '0', hexDigChar (c.toNat / 16), hexDigChar (c.toNat % 16)]
  else [c]

def escStr : List Char → List Char
  | [] => []
  | c :: tl => escChar c ++ escStr tl

mutual
def serChars : JVal → List Char
  | JVal.null => ['n', 'u', 'l', 'l']
  | JVal.bool true => ['t', 'r', 'u', 'e']
  | JVal.bool false => ['f', 'a', 'l', 's', 'e']
  | JVal.num n => intChars n
  | JVal.str s => '\x22' :: (escStr s.data ++ ['\x22'])
  | JVal.arr a => '[' :: (serArr a ++ [']'])
  | JVal.obj o => '\x7b' :: (serObj o ++ ['\x7d'])
def serArr : JArr → List Char
  | JArr.nil => []
  | JArr.cons v JArr.nil => serChars v
  | JArr.cons v (JArr.cons w tl) => serChars v ++ ',' :: serArr (JArr.cons w tl)
def serObj : JObj → List Char
  | JObj.nil => []
  | JObj.cons k v JObj.nil => ('\x22' :: (escStr k.data ++ ['\x22', ':'])) ++ serChars v
  | JObj.cons k v (JObj.cons k2 v2 tl) =>
    (('\x22' :: (escStr k.data ++ ['\x22', ':'])) ++ serChars v) ++
      ',' :: serObj (JObj.cons k2 v2 tl)
end

def serializeJ (v : JVal) : String := String.mk (serChars v)

def valOf (l : List Char) : Nat := l.foldl (fun a c => a * 10 + (c.toNat - 48)) 0

def hexVal (c : Char) : Option Nat :=
  if c.isDigit then some (c.toNat - 48)
  else if 97 ≤ c.toNat ∧ c.toNat ≤ 102 then some (c.toNat - 87)
  else if 65 ≤ c.toNat ∧ c.toNat ≤ 70 then some (c.toNat - 55)
  else none

def hexQuad (h1 h2 h3 h4 : Char) (rest3 : List Char) : Option (Char × List Char) :=
  match hexVal h1, hexVal h2, hexVal h3, hexVal h4 with
  | some a, some b, some c2, some d =>
    let n := ((a * 16 + b) * 16 + c2) * 16 + d
    if h : n.isValidChar then some (Char.ofNatAux n h, rest3) else none
  | _, _, _, _ => none

def parseEsc (e : Char) (rest2 : List Char) : Option (Char × List Char) :=
  if e = '\x22' then some ('\x22', rest2)
  else if e = '\\' then some ('\\', rest2)
  else if e = '/' then some ('/', rest2)
  else if e = 'b' then some ('\x08', rest2)
  else if e = 'f' then some ('\x0c', rest2)
  else if e = 'n' then some ('\x0a', rest2)
  else if e = 'r' then some ('\x0d', rest2)
  else if e = 't' then some ('\x09', rest2)
  else if e = 'u' then
    match rest2 with
    | h1 :: h2 :: h3 :: h4 :: rest3 => hexQuad h1 h2 h3 h4 rest3
    | _ => none
  else none

def parseStrBodyF : Nat → List Char → Option (List Char × List Char)
  | 0, _ => none
  | Nat.succ _, [] => none
  | Nat.succ f, c :: rest =>
    if c = '\x22' then some ([], rest)
    else if c = '\\' then
      match rest with
      | [] => none
      | e :: rest2 =>
        match parseEsc e rest2 with
        | some (d, rest3) => (parseStrBodyF f rest3).map (fun p => (d :: p.1, p.2))
        | none => none
    else if c.toNat < 32 then none
    else (parseStrBodyF f rest).map (fun p => (c :: p.1, p.2))

mutual
def parseVal : Nat → List Char → Option (JVal × List Char)
  | 0, _ => none
  | Nat.succ _, [] => none
  | Nat.succ f, c :: r =>
    if c = 'n' then
      if r.take 3 = ['u', 'l', 'l'] then some (JVal.null, r.drop 3) else none
    else if c = 't' then
      if r.take 3 = ['r', 'u', 'e'] then some (JVal.bool true, r.drop 3) else none
    else if c = 'f' then
      if r.take 4 = ['a', 'l', 's', 'e'] then some (JVal.bool false, r.drop 4) else none
    else if c = '\x22' then
      (parseStrBodyF f r).map (fun p => (JVal.str (String.mk p.1), p.2))
    else if c = '[' then
      if r.head? = some ']' then some (JVal.arr JArr.nil, r.tail)
      else (parseArrItems f r).map (fun p => (JVal.arr p.1, p.2))
    else if c = '\x7b' then
      if r.head? = some '\x7d' then some (JVal.obj JObj.nil, r.tail)
      else (parseObjItems f r).map (fun p => (JVal.obj p.1, p.2))
    else if c = '-' then
      let ds := r.takeWhile Char.isDigit
      if ds.isEmpty then none
      else some (JVal.num (-(valOf ds : Int)), r.dropWhile Char.isDigit)
    else if c.isDigit then
      some (JVal.num (valOf ((c :: r).takeWhile Char.isDigit) : Int),
        (c :: r).dropWhile Char.isDigit)
    else none
def parseArrItems : Nat → List Char → Option (JArr × List Char)
  | 0, _ => none
  | Nat.succ f, l =>
    match parseVal f l with
    | none => none
    | some (v, r) =>
      if r.head? = some ',' then
        (parseArrItems f r.tail).map (fun p => (JArr.cons v p.1, p.2))
      else if r.head? = some ']' then some (JArr.cons v JArr.nil, r.tail)
      else none
def parseObjItems : Nat → List Char → Option (JObj × List Char)
  | 0, _ => none
  | Nat.succ _, [] => none
  | Nat.succ f, c :: r =>
    if c = '\x22' then
      match parseStrBodyF f r with
      | none => none
      | some (k, r2) =>
        if r2.head? = some ':' then
          match parseVal f r2.tail with
          | none => none
          | some (v, r4) =>
            if r4.head? = some ',' then
              (parseObjItems f r4.tail).map
                (fun p => (JObj.cons (String.mk k) v p.1, p.2))
            else if r4.head? = some '\x7d' then
              some (JObj.cons (String.mk k) v JObj.nil, r4.tail)
            else none
        else none
    else none
end

def jsonParseChars (l : List Char) : Option JVal :=
  match parseVal (l.length + 1) l with
  | some (v, []) => some v
  | _ => none


structure ConnectErrorPacket where
  message : String

inductive PacketData (T : Type) where
  | Connect (d : Option T)
  | Disconnect
  | Event (event : String) (payload : T)
  | Ack (id : Int)
  | ConnectError (d : ConnectErrorPacket)
  | BinaryEvent (event : String) (payload : T) (bin : List (List Nat))
  | BinaryAck (payload : T) (bin : List (List Nat))

structure Packet (T : Type) where
  inner : PacketData T
  ns : String

def PacketData.index {T : Type} : PacketData T → Nat
  | PacketData.Connect _ => 0
  | PacketData.Disconnect => 1
  | PacketData.Event _ _ => 2
  | PacketData.Ack _ => 3
  | PacketData.ConnectError _ => 4
  | PacketData.BinaryEvent _ _ _ => 5
  | PacketData.BinaryAck _ _ => 6

inductive PError where
  | InvalidPacketType
  | InvalidEventName
  | Serde
deriving DecidableEq

inductive DecodeOutcome where
  | ok (p : Packet JVal)
  | err (e : PError)
  | panicked (msg : String)

inductive EncodeOutcome where
  | ok (s : String)
  | panicked (msg : String)

def encode (p : Packet JVal) : EncodeOutcome :=
  let head :=
    if p.ns ≠ "" ∧ p.ns ≠ "/" then digitChar p.inner.index :: (p.ns.data ++ [','])
    else [digitChar p.inner.index]
  match p.inner with
  | PacketData.Connect none => EncodeOutcome.ok (String.mk head)
  | PacketData.Connect (some d) => EncodeOutcome.ok (String.mk (head ++ serChars d))
  | PacketData.Disconnect => EncodeOutcome.ok (String.mk head)
  | PacketData.Event e d =>
    EncodeOutcome.ok
      (String.mk (head ++ serChars (JVal.arr (JArr.cons (JVal.str e) (JArr.cons d JArr.nil)))))
  | PacketData.Ack _ => EncodeOutcome.panicked "not yet implemented"
  | PacketData.ConnectError d =>
    EncodeOutcome.ok
      (String.mk (head ++ serChars (JVal.obj (JObj.cons "message" (JVal.str d.message) JObj.nil))))
  | PacketData.BinaryEvent _ _ _ => EncodeOutcome.panicked "not yet implemented"
  | PacketData.BinaryAck _ _ => EncodeOutcome.panicked "not yet implemented"

def attPred (c : Char) : Bool := c != '-' && c.isDigit
def nsPred (c : Char) : Bool := c != ',' && c != '\x7b' && c != '[' && !c.isDigit

def parseU32 (l : List Char) : Option Nat :=
  if l.isEmpty then none
  else if valOf l < 4294967296 then some (valOf l) else none

structure Header where
  ns : String
  data : List Char

def headerAtt (l : List Char) : List Char :=
  if (parseU32 (l.takeWhile attPred)).getD 0 > 0 then (l.dropWhile attPred).tail
  else l.dropWhile attPred

def headerNs (l : List Char) : Header :=
  Header.mk
    (String.mk (if (l.takeWhile nsPred).head? = some '/' then l.takeWhile nsPred
      else '/' :: l.takeWhile nsPred))
    ((if (l.takeWhile nsPred).isEmpty then l.dropWhile nsPred
      else (l.dropWhile nsPred).tail).dropWhile Char.isDigit)

def headerParse (l : List Char) : Header :=
  headerNs (headerAtt l)

def deserialize_packet (data : List Char) : Except PError (Option JVal) :=
  if data.isEmpty then Except.ok none
  else
    match jsonParseChars data with
    | some v => Except.ok (some v)
    | none => Except.error PError.Serde

def deserialize_event_packet (data : List Char) : Except PError (String × JVal) :=
  match jsonParseChars data with
  | none => Except.error PError.Serde
  | some (JVal.arr (JArr.cons (JVal.str e) tl)) => Except.ok (e, JVal.arr tl)
  | some _ => Except.error PError.InvalidEventName

def msgField : JObj → Option String
  | JObj.nil => none
  | JObj.cons k v tl =>
    if k = "message" then
      match v with
      | JVal.str m => if (msgField tl).isSome then none else some m
      | _ => none
    else msgField tl

def connectErrorOfJson : JVal → Option ConnectErrorPacket
  | JVal.obj fs => (msgField fs).map ConnectErrorPacket.mk
  | _ => none

def dispatch (index : Char) (h : Header) : DecodeOutcome :=
  if index = '0' then
    match deserialize_packet h.data with
    | Except.ok d => DecodeOutcome.ok (Packet.mk (PacketData.Connect d) h.ns)
    | Except.error e => DecodeOutcome.err e
  else if index = '1' then DecodeOutcome.ok (Packet.mk PacketData.Disconnect h.ns)
  else if index = '2' then
    match deserialize_event_packet h.data with
    | Except.ok (e, payload) => DecodeOutcome.ok (Packet.mk (PacketData.Event e payload) h.ns)
    | Except.error e => DecodeOutcome.err e
  else if index = '3' then DecodeOutcome.panicked "not yet implemented"
  else if index = '4' then
    match deserialize_packet h.data with
    | Except.ok (some v) =>
      match connectErrorOfJson v with
      | some ce => DecodeOutcome.ok (Packet.mk (PacketData.ConnectError ce) h.ns)
      | none => DecodeOutcome.err PError.Serde
    | Except.ok none => DecodeOutcome.err PError.InvalidPacketType
    | Except.error e => DecodeOutcome.err e
  else if index = '5' then DecodeOutcome.panicked "not yet implemented"
  else if index = '6' then DecodeOutcome.panicked "not yet implemented"
  else DecodeOutcome.err PError.InvalidPacketType

def decode (s : String) : DecodeOutcome :=
  match s.data with
  | [] => DecodeOutcome.err PError.InvalidPacketType
  | index :: rest => dispatch index (headerParse rest)

def roundTrip (p : Packet JVal) : DecodeOutcome :=
  match encode p with
  | EncodeOutcome.ok s => decode s
  | EncodeOutcome.panicked m => DecodeOutcome.panicked m

def eventShape : JVal → Bool
  | JVal.arr (JArr.cons (JVal.str _) _) => true
  | _ => false

def validNs (ns : String) : Bool :=
  ns.data.head? = some '/' && ns.data.all nsPred

def headFails (p : Char → Bool) (l : List Char) : Prop :=
  ∀ c, l.head? = some c → p c = false

def escStep (f : Nat) (o : Option (Char × List Char)) : Option (List Char × List Char) :=
  match o with
  | some (d, rest3) => (parseStrBodyF f rest3).map (fun p => (d :: p.1, p.2))
  | none => none

def arrStep (f : Nat) (o : Option (JVal × List Char)) : Option (JArr × List Char) :=
  match o with
  | none => none
  | some (v, r) =>
    if r.head? = some ',' then
      (parseArrItems f r.tail).map (fun p => (JArr.cons v p.1, p.2))
    else if r.head? = some ']' then some (JArr.cons v JArr.nil, r.tail)
    else none

def objStepVal (f : Nat) (k : List Char) (o : Option (JVal × List Char)) :
    Option (JObj × List Char) :=
  match o with
  | none => none
  | some (v, r4) =>
    if r4.head? = some ',' then
      (parseObjItems f r4.tail).map (fun p => (JObj.cons (String.mk k) v p.1, p.2))
    else if r4.head? = some '\x7d' then
      some (JObj.cons (String.mk k) v JObj.nil, r4.tail)
    else none

def objStepKey (f : Nat) (o : Option (List Char × List Char)) :
    Option (JObj × List Char) :=
  match o with
  | none => none
  | some (k, r2) =>
    if r2.head? = some ':' then objStepVal f k (parseVal f r2.tail)
    else none

/-! ### Registry lemmas -/

lemma socket_rooms_cons (r : Room) (s : List Int) (tl : Registry) (sid : Int) :
    socket_rooms ((r, s) :: tl) sid =
      if sid ∈ s then r :: socket_rooms tl sid else socket_rooms tl sid := by
  simp only [socket_rooms, List.filter_cons]
  by_cases h : sid ∈ s <;> simp [h, List.elem_iff]

lemma regKeys_cons (r : Room) (s : List Int) (tl : Registry) :
    regKeys ((r, s) :: tl) = r :: regKeys tl := rfl

lemma mem_hsInsert_self (s : List Int) (sid : Int) : sid ∈ hsInsert s sid := by
  unfold hsInsert
  by_cases h : sid ∈ s <;> simp [h, List.elem_iff]

lemma socket_rooms_subset_keys (reg : Registry) (sid : Int) (x : Room)
    (hx : x ∈ socket_rooms reg sid) : x ∈ regKeys reg := by
  induction reg with
  | nil => simp [socket_rooms] at hx
  | cons p tl ih =>
    obtain ⟨r, s⟩ := p
    rw [socket_rooms_cons] at hx
    rw [regKeys_cons, List.mem_cons]
    by_cases h : sid ∈ s
    · rw [if_pos h] at hx
      rcases List.mem_cons.mp hx with h1 | h1
      · exact Or.inl h1
      · exact Or.inr (ih h1)
    · rw [if_neg h] at hx
      exact Or.inr (ih hx)

lemma socket_rooms_of_fresh (reg : Registry) (sid : Int)
    (h : ∀ p ∈ reg, sid ∉ p.2) : socket_rooms reg sid = [] := by
  induction reg with
  | nil => rfl
  | cons p tl ih =>
    obtain ⟨r, s⟩ := p
    rw [socket_rooms_cons, if_neg (h (r, s) (List.mem_cons_self _ _))]
    exact ih (fun p hp => h p (List.mem_cons_of_mem _ hp))

lemma mem_socket_rooms_entryInsert (reg : Registry) (room : Room) (sid : Int) (x : Room) :
    x ∈ socket_rooms (entryInsert reg room sid) sid ↔
      x = room ∨ x ∈ socket_rooms reg sid := by
  induction reg with
  | nil =>
    simp [entryInsert, socket_rooms_cons, socket_rooms]
  | cons p tl ih =>
    obtain ⟨r, s⟩ := p
    by_cases hr : r = room
    · subst hr
      rw [entryInsert, if_pos rfl, socket_rooms_cons, if_pos (mem_hsInsert_self s sid),
        socket_rooms_cons]
      by_cases hs : sid ∈ s
      · rw [if_pos hs]
        simp only [List.mem_cons]
        tauto
      · rw [if_neg hs]
        simp only [List.mem_cons]
    · rw [entryInsert, if_neg hr, socket_rooms_cons, socket_rooms_cons]
      by_cases hs : sid ∈ s
      · rw [if_pos hs, if_pos hs]
        simp only [List.mem_cons, ih]
        tauto
      · rw [if_neg hs, if_neg hs]
        exact ih

lemma not_mem_filter_ne_self (s : List Int) (sid : Int) :
    sid ∉ s.filter (fun x => x ≠ sid) := by
  simp [List.mem_filter]

lemma mem_socket_rooms_delRoom (reg : Registry) (room : Room) (sid : Int) (x : Room)
    (hnd : (regKeys reg).Nodup) :
    x ∈ socket_rooms (delRoom reg room sid) sid ↔
      x ∈ socket_rooms reg sid ∧ x ≠ room := by
  induction reg with
  | nil => simp [delRoom, socket_rooms]
  | cons p tl ih =>
    obtain ⟨r, s⟩ := p
    rw [regKeys_cons, List.nodup_cons] at hnd
    obtain ⟨hrk, hndtl⟩ := hnd
    have hsub : ∀ y, y ∈ socket_rooms tl sid → y ≠ r := by
      intro y hy hyr
      exact hrk (hyr ▸ socket_rooms_subset_keys tl sid y hy)
    by_cases hr : r = room
    · subst hr
      rw [delRoom, if_pos rfl, socket_rooms_cons,
        if_neg (not_mem_filter_ne_self s sid), socket_rooms_cons]
      by_cases hs : sid ∈ s
      · rw [if_pos hs]
        simp only [List.mem_cons]
        constructor
        · intro hx
          exact ⟨Or.inr hx, hsub x hx⟩
        · rintro ⟨hx | hx, hxr⟩
          · exact absurd hx hxr
          · exact hx
      · rw [if_neg hs]
        constructor
        · intro hx
          exact ⟨hx, hsub x hx⟩
        · rintro ⟨hx, _⟩
          exact hx
    · rw [delRoom, if_neg hr, socket_rooms_cons, socket_rooms_cons]
      by_cases hs : sid ∈ s
      · rw [if_pos hs, if_pos hs]
        simp only [List.mem_cons, ih hndtl]
        constructor
        · rintro (hx | ⟨hx, hxr⟩)
          · exact ⟨Or.inl hx, hx ▸ hr⟩
          · exact ⟨Or.inr hx, hxr⟩
        · rintro ⟨hx | hx, hxr⟩
          · exact Or.inl hx
          · exact Or.inr ⟨hx, hxr⟩
      · rw [if_neg hs, if_neg hs]
        exact ih hndtl

lemma socket_rooms_del_all (reg : Registry) (sid : Int) :
    socket_rooms (del_all reg sid) sid = [] := by
  induction reg with
  | nil => rfl
  | cons p tl ih =>
    obtain ⟨r, s⟩ := p
    simp only [del_all, List.map_cons]
    rw [socket_rooms_cons, if_neg (not_mem_filter_ne_self s sid)]
    simpa [del_all] using ih

lemma regKeys_entryInsert (reg : Registry) (room : Room) (sid : Int) :
    regKeys (entryInsert reg room sid) = regKeys reg ∨
      regKeys (entryInsert reg room sid) = regKeys reg ++ [room] := by
  induction reg with
  | nil => right; rfl
  | cons p tl ih =>
    obtain ⟨r, s⟩ := p
    by_cases hr : r = room
    · left
      rw [entryInsert, if_pos hr, regKeys_cons, regKeys_cons]
    · rcases ih with h | h
      · left
        rw [entryInsert, if_neg hr, regKeys_cons, regKeys_cons, h]
      · right
        rw [entryInsert, if_neg hr, regKeys_cons, regKeys_cons, h]
        rfl

lemma mem_regKeys_add_all (reg : Registry) (sid : Int) (rooms : List Room) (x : Room)
    (hx : x ∈ regKeys reg) : x ∈ regKeys (add_all reg sid rooms) := by
  induction rooms generalizing reg with
  | nil => exact hx
  | cons room tl ih =>
    simp only [add_all, List.foldl_cons]
    apply ih
    rcases regKeys_entryInsert reg room sid with h | h
    · rw [h]; exact hx
    · rw [h]; exact List.mem_append_left _ hx

lemma regKeys_delRoom (reg : Registry) (room : Room) (sid : Int) :
    regKeys (delRoom reg room sid) = regKeys reg := by
  induction reg with
  | nil => rfl
  | cons p tl ih =>
    obtain ⟨r, s⟩ := p
    by_cases hr : r = room
    · rw [delRoom, if_pos hr, regKeys_cons, regKeys_cons]
    · rw [delRoom, if_neg hr, regKeys_cons, regKeys_cons, ih]

lemma regKeys_del (reg : Registry) (sid : Int) (rooms : List Room) :
    regKeys (del reg sid rooms) = regKeys reg := by
  induction rooms generalizing reg with
  | nil => rfl
  | cons room tl ih =>
    simp only [del, List.foldl_cons]
    rw [show List.foldl (fun acc room => delRoom acc room sid) (delRoom reg room sid) tl =
          del (delRoom reg room sid) sid tl from rfl,
      ih, regKeys_delRoom]

lemma regKeys_del_all (reg : Registry) (sid : Int) :
    regKeys (del_all reg sid) = regKeys reg := by
  simp [regKeys, del_all, List.map_map]

lemma nodup_regKeys_entryInsert (reg : Registry) (room : Room) (sid : Int)
    (hnd : (regKeys reg).Nodup) : (regKeys (entryInsert reg room sid)).Nodup := by
  induction reg with
  | nil => simp [entryInsert, regKeys]
  | cons p tl ih =>
    obtain ⟨r, s⟩ := p
    rw [regKeys_cons, List.nodup_cons] at hnd
    obtain ⟨hrk, hndtl⟩ := hnd
    by_cases hr : r = room
    · rw [entryInsert, if_pos hr, regKeys_cons, List.nodup_cons]
      exact ⟨hrk, hndtl⟩
    · rw [entryInsert, if_neg hr, regKeys_cons, List.nodup_cons]
      refine ⟨?_, ih hndtl⟩
      rcases regKeys_entryInsert tl room sid with h | h
      · rw [h]; exact hrk
      · rw [h]
        intro hmem
        rcases List.mem_append.mp hmem with h1 | h1
        · exact hrk h1
        · exact hr (by simpa using h1)

lemma mem_regKeys_applyOp (reg : Registry) (op : AdapterOp) (x : Room)
    (hx : x ∈ regKeys reg) : x ∈ regKeys (applyOp reg op) := by
  cases op with
  | addAll sid rooms => exact mem_regKeys_add_all reg sid rooms x hx
  | delOp sid rooms => rw [applyOp, regKeys_del]; exact hx
  | delAllOp sid => rw [applyOp, regKeys_del_all]; exact hx

/-! ### Claim theorems for the adapter -/

/-- C1: the spec claims that with options `{rooms:[R1], sid:2}` and no
`Broadcast` flag, socket 2 (a member of R1) is included in the resolved
target set.  The code's filter
`!except.contains(sid) && (flags.contains(Broadcast) && sid != opts.sid)`
is identically false when the flag is absent, so the matcher resolves to
nothing at all (first conjunct); with the flag set it resolves to the other
members, confirming that only the self-exclusion side of the spec matches
the code.  The spec (§8, §9) records the inclusive behaviour as the
intended one, so this is a bug in the code's filter. -/
theorem c1_apply_opts_without_broadcast_empties :
    apply_opts [("R1", [1, 2, 3])] [1, 2, 3] ⟨[], ["R1"], [], 2⟩ = [] ∧
    apply_opts [("R1", [1, 2, 3])] [1, 2, 3] ⟨[BroadcastFlags.Broadcast], ["R1"], [], 2⟩ =
      [1, 3] := ⟨rfl, rfl⟩

/-- C2: the spec claims that `{rooms:[R1,R2], except:[E]}` with no flags
resolves to the union of R1 and R2 minus E, i.e. `{1,2,4}`.  Because of the
filter bug exhibited in C1 the code resolves to the empty set when no
`Broadcast` flag is given (first conjunct); the expected set `{1,2,4}`
appears only when the `Broadcast` flag is added (second conjunct; `sid = -1`
is no member, so only the except-room subtraction acts). -/
theorem c2_apply_opts_union_except_bug :
    apply_opts [("R1", [1, 2, 3]), ("R2", [3, 4]), ("E", [3])] [1, 2, 3, 4]
      ⟨[], ["R1", "R2"], ["E"], -1⟩ = [] ∧
    apply_opts [("R1", [1, 2, 3]), ("R2", [3, 4]), ("E", [3])] [1, 2, 3, 4]
      ⟨[BroadcastFlags.Broadcast], ["R1", "R2"], ["E"], -1⟩ = [1, 2, 4] := ⟨rfl, rfl⟩

/-- C4 counterexample: with the resolved target list `[socket 1 (send
fails), socket 2 (send succeeds)]`, the delivery loop never attempts the
send on socket 2, refuting the claim that a failure on one socket does not
prevent attempted delivery to the others. -/
theorem c4_broadcast_short_circuit_counterexample :
    collectSends [⟨1, Except.error 7⟩, ⟨2, Except.ok ()⟩] = ([1], Except.error 7) ∧
    (2 : Int) ∉ (collectSends [⟨1, Except.error 7⟩, ⟨2, Except.ok ()⟩]).1 := by
  refine ⟨rfl, ?_⟩
  decide

/-- C4 amended: `broadcast` attempts sends in target order and stops at the
first failure; targets after the first failing one are not attempted.  The
reported result is the first delivery failure (`Ok` when all sends
succeed). -/
theorem c4_broadcast_first_failure :
    (∀ ts : List DSocket, (∀ s ∈ ts, s.sendResult = Except.ok ()) →
      collectSends ts = (ts.map DSocket.sid, Except.ok ())) ∧
    (∀ (pre : List DSocket) (s : DSocket) (post : List DSocket) (e : Nat),
      (∀ p ∈ pre, p.sendResult = Except.ok ()) → s.sendResult = Except.error e →
      collectSends (pre ++ s :: post) =
        (pre.map DSocket.sid ++ [s.sid], Except.error e)) := by
  constructor
  · intro ts hts
    induction ts with
    | nil => rfl
    | cons s tl ih =>
      have hs := hts s (List.mem_cons_self _ _)
      rw [collectSends, hs, ih (fun p hp => hts p (List.mem_cons_of_mem _ hp))]
      rfl
  · intro pre s post e hpre hs
    induction pre with
    | nil =>
      simp only [List.nil_append, List.map_nil]
      rw [collectSends, hs]
    | cons p tl ih =>
      have hp := hpre p (List.mem_cons_self _ _)
      simp only [List.cons_append, List.map_cons]
      rw [collectSends, hp, ih (fun q hq => hpre q (List.mem_cons_of_mem _ hq))]

/-- C4 witness: the amended theorem applied at concrete target lists. -/
theorem c4_broadcast_first_failure_witness :
    ((∀ s ∈ ([⟨1, Except.ok ()⟩] : List DSocket), s.sendResult = Except.ok ()) ∧
      collectSends [⟨1, Except.ok ()⟩] = ([1], Except.ok ())) ∧
    ((⟨2, Except.error 5⟩ : DSocket).sendResult = Except.error 5 ∧
      collectSends ([⟨1, Except.ok ()⟩] ++ ⟨2, Except.error 5⟩ :: [⟨3, Except.ok ()⟩]) =
        ([1, 2], Except.error 5)) := by
  refine ⟨⟨?_, ?_⟩, rfl, ?_⟩
  · intro s hs
    simp only [List.mem_singleton] at hs
    rw [hs]
  · exact c4_broadcast_first_failure.1 [⟨1, Except.ok ()⟩]
      (by intro s hs; simp only [List.mem_singleton] at hs; rw [hs])
  · exact c4_broadcast_first_failure.2 [⟨1, Except.ok ()⟩] ⟨2, Except.error 5⟩
      [⟨3, Except.ok ()⟩] 5
      (by intro s hs; simp only [List.mem_singleton] at hs; rw [hs]) rfl

/-- C6: starting from any registry with duplicate-free keys in which socket
S belongs to no room, after `add_all(S, [A,B])` the rooms of S are exactly
`{A,B}`; after a further `del(S,[A])` exactly `{B}`; after a further
`del_all(S)` the empty set. -/
theorem c6_room_membership_lifecycle (reg : Registry) (S : Int) (A B : Room)
    (hnd : (regKeys reg).Nodup) (hfresh : ∀ p ∈ reg, S ∉ p.2) (hAB : A ≠ B) :
    (socket_rooms (add_all reg S [A, B]) S).toFinset = {A, B} ∧
    (socket_rooms (del (add_all reg S [A, B]) S [A]) S).toFinset = {B} ∧
    socket_rooms (del_all (del (add_all reg S [A, B]) S [A]) S) S = [] := by
  have hadd : add_all reg S [A, B] = entryInsert (entryInsert reg A S) B S := rfl
  have hdel : del (add_all reg S [A, B]) S [A] =
      delRoom (add_all reg S [A, B]) A S := rfl
  have hmem1 : ∀ x, x ∈ socket_rooms (add_all reg S [A, B]) S ↔ (x = A ∨ x = B) := by
    intro x
    rw [hadd, mem_socket_rooms_entryInsert, mem_socket_rooms_entryInsert,
      socket_rooms_of_fresh reg S hfresh]
    simp only [List.not_mem_nil, or_false]
    tauto
  have hnd1 : (regKeys (add_all reg S [A, B])).Nodup := by
    rw [hadd]
    exact nodup_regKeys_entryInsert _ _ _ (nodup_regKeys_entryInsert _ _ _ hnd)
  have hmem2 : ∀ x, x ∈ socket_rooms (del (add_all reg S [A, B]) S [A]) S ↔ x = B := by
    intro x
    rw [hdel, mem_socket_rooms_delRoom _ _ _ _ hnd1, hmem1]
    constructor
    · rintro ⟨hA | hB, hxA⟩
      · exact absurd hA hxA
      · exact hB
    · intro hB
      exact ⟨Or.inr hB, hB ▸ (Ne.symm hAB)⟩
  refine ⟨?_, ?_, socket_rooms_del_all _ _⟩
  · ext x
    simp [hmem1, List.mem_toFinset]
  · ext x
    simp [hmem2, List.mem_toFinset]

/-- C6 witness: the lifecycle applied to the empty registry with S = 7,
A = "A", B = "B". -/
theorem c6_room_membership_lifecycle_witness :
    (regKeys ([] : Registry)).Nodup ∧ ("A" : Room) ≠ "B" ∧
    (socket_rooms (add_all [] 7 ["A", "B"]) 7).toFinset = {"A", "B"} ∧
    (socket_rooms (del (add_all [] 7 ["A", "B"]) 7 ["A"]) 7).toFinset = {"B"} ∧
    socket_rooms (del_all (del (add_all [] 7 ["A", "B"]) 7 ["A"]) 7) 7 = [] := by
  have h := c6_room_membership_lifecycle [] 7 "A" "B" (by decide)
    (by intro p hp; simp at hp) (by decide)
  exact ⟨by decide, by decide, h.1, h.2.1, h.2.2⟩

/-- C7: with an empty rooms list, the matcher targets every live socket of
the namespace minus the except-union when the `Broadcast` flag is present,
and exactly the socket `opts.sid` (if live, else nothing) when it is
absent. -/
theorem c7_empty_rooms_resolution (reg : Registry) (nsl : List Int)
    (opts : BroadcastOptions) (h : opts.rooms = []) :
    (opts.flags.contains BroadcastFlags.Broadcast = true →
      ∀ x : Int, x ∈ apply_opts reg nsl opts ↔
        x ∈ nsl ∧ x ∉ get_except_sids reg opts.except) ∧
    (opts.flags.contains BroadcastFlags.Broadcast = false →
      apply_opts reg nsl opts =
        if opts.sid ∈ nsl then [opts.sid] else []) := by
  constructor
  · intro hf x
    simp [apply_opts, h, hf, List.mem_filter, List.elem_iff]
  · intro hf
    simp only [apply_opts, h, List.length_nil, gt_iff_lt, lt_self_iff_false, if_false,
      hf, Bool.false_eq_true, get_socket]
    by_cases hx : opts.sid ∈ nsl
    · simp [hx, List.elem_iff]
    · simp [hx, List.elem_iff]

/-- C7 witness: both branches applied at a concrete registry/namespace. -/
theorem c7_empty_rooms_resolution_witness :
    (([BroadcastFlags.Broadcast] : List BroadcastFlags).contains BroadcastFlags.Broadcast =
        true ∧
      ((3 : Int) ∈ apply_opts [("E", [(3 : Int)])] [1, 2, 3]
          ⟨[BroadcastFlags.Broadcast], [], ["E"], -1⟩ ↔
        (3 : Int) ∈ ([1, 2, 3] : List Int) ∧
          (3 : Int) ∉ get_except_sids [("E", [(3 : Int)])] ["E"])) ∧
    (([] : List BroadcastFlags).contains BroadcastFlags.Broadcast = false ∧
      apply_opts [("E", [(3 : Int)])] [1, 2, 3] ⟨[], [], ["E"], 2⟩ =
        if (2 : Int) ∈ ([1, 2, 3] : List Int) then [2] else []) :=
  ⟨⟨rfl, (c7_empty_rooms_resolution [("E", [3])] [1, 2, 3]
      ⟨[BroadcastFlags.Broadcast], [], ["E"], -1⟩ rfl).1 rfl 3⟩,
    ⟨rfl, (c7_empty_rooms_resolution [("E", [3])] [1, 2, 3]
      ⟨[], [], ["E"], 2⟩ rfl).2 rfl⟩⟩

/-- C9: along every sequence of `add_all` / `del` / `del_all` operations, a
room that is a key of the registry stays a key; and a key can remain while
its member set has become empty (concrete conjuncts: adding socket 1 to
room "A" and then `del_all(1)` leaves key "A" with the empty member set). -/
theorem c9_room_keys_persist :
    (∀ (ops : List AdapterOp) (reg : Registry) (room : Room),
      room ∈ regKeys reg → room ∈ regKeys (runOps reg ops)) ∧
    regKeys (runOps [] [AdapterOp.addAll 1 ["A"], AdapterOp.delAllOp 1]) = ["A"] ∧
    regGet (runOps [] [AdapterOp.addAll 1 ["A"], AdapterOp.delAllOp 1]) "A" = some [] := by
  refine ⟨?_, rfl, rfl⟩
  intro ops
  induction ops with
  | nil => intro reg room hx; exact hx
  | cons op tl ih =>
    intro reg room hx
    exact ih (applyOp reg op) room (mem_regKeys_applyOp reg op room hx)

/-- C9 witness: key preservation applied at a concrete registry and
operation sequence. -/
theorem c9_room_keys_persist_witness :
    "A" ∈ regKeys ([("A", [(5 : Int)])] : Registry) ∧
    "A" ∈ regKeys (runOps [("A", [(5 : Int)])] [AdapterOp.delOp 5 ["A"]]) :=
  ⟨by decide, c9_room_keys_persist.1 [AdapterOp.delOp 5 ["A"]] [("A", [5])] "A" (by decide)⟩

/-! ### Codec lemmas -/

lemma headFails_cons (p : Char → Bool) (c : Char) (l : List Char) (h : p c = false) :
    headFails p (c :: l) := by
  intro d hd
  simp only [List.head?_cons, Option.some.injEq] at hd
  rw [← hd]
  exact h

lemma headFails_nil (p : Char → Bool) : headFails p [] := by
  intro d hd
  simp at hd

lemma takeWhile_append_all (p : Char → Bool) (a b : List Char)
    (ha : ∀ c ∈ a, p c = true) (hb : headFails p b) :
    (a ++ b).takeWhile p = a ∧ (a ++ b).dropWhile p = b := by
  induction a with
  | nil =>
    simp only [List.nil_append]
    cases b with
    | nil => simp [List.takeWhile, List.dropWhile]
    | cons c tl =>
      have hc := hb c rfl
      simp [List.takeWhile_cons, List.dropWhile_cons, hc]
  | cons c tl ih =>
    have hc := ha c (List.mem_cons_self _ _)
    have h2 := ih (fun d hd => ha d (List.mem_cons_of_mem _ hd))
    simp [List.takeWhile_cons, List.dropWhile_cons, hc, h2.1, h2.2]

lemma digitChar_isDigit (d : Nat) (h : d < 10) : (digitChar d).isDigit = true := by
  interval_cases d <;> decide

lemma digitChar_toNat (d : Nat) (h : d < 10) : (digitChar d).toNat = 48 + d := by
  interval_cases d <;> decide

lemma valOf_append_singleton (a : List Char) (c : Char) :
    valOf (a ++ [c]) = valOf a * 10 + (c.toNat - 48) := by
  simp [valOf, List.foldl_append]

lemma natCharsAux_spec (fuel n : Nat) (h : n < fuel) :
    (∀ c ∈ natCharsAux fuel n, c.isDigit = true) ∧
    natCharsAux fuel n ≠ [] ∧ valOf (natCharsAux fuel n) = n := by
  induction fuel generalizing n with
  | zero => omega
  | succ f ih =>
    by_cases h10 : n < 10
    · rw [natCharsAux, if_pos h10]
      refine ⟨?_, by simp, ?_⟩
      · intro c hc
        simp only [List.mem_singleton] at hc
        rw [hc]
        exact digitChar_isDigit n h10
      · simp [valOf, digitChar_toNat n h10]
    · rw [natCharsAux, if_neg h10]
      have hrec : n / 10 < f := by omega
      obtain ⟨hd, hne, hv⟩ := ih (n / 10) hrec
      refine ⟨?_, by simp, ?_⟩
      · intro c hc
        rcases List.mem_append.mp hc with hc | hc
        · exact hd c hc
        · simp only [List.mem_singleton] at hc
          rw [hc]
          exact digitChar_isDigit _ (Nat.mod_lt _ (by omega))
      · rw [valOf_append_singleton, hv, digitChar_toNat _ (Nat.mod_lt _ (by omega))]
        omega

lemma natChars_spec (n : Nat) :
    (∀ c ∈ natChars n, c.isDigit = true) ∧ natChars n ≠ [] ∧ valOf (natChars n) = n :=
  natCharsAux_spec (n + 1) n (Nat.lt_succ_self n)

lemma hexVal_hexDigChar (m : Nat) (h : m < 16) : hexVal (hexDigChar m) = some m := by
  interval_cases m <;> decide

lemma charOfNatAux_toNat (c : Char) (h : c.toNat.isValidChar) :
    Char.ofNatAux c.toNat h = c := by
  unfold Char.ofNatAux
  rfl

lemma hexQuad_eval (c : Char) (hc : c.toNat < 32) (rest3 : List Char) :
    hexQuad '0' '0' (hexDigChar (c.toNat / 16)) (hexDigChar (c.toNat % 16)) rest3 =
      some (c, rest3) := by
  unfold hexQuad
  rw [hexVal_hexDigChar (c.toNat / 16) (by omega), hexVal_hexDigChar (c.toNat % 16) (by omega)]
  have hn : ((0 * 16 + 0) * 16 + c.toNat / 16) * 16 + c.toNat % 16 = c.toNat := by omega
  have hv : c.toNat.isValidChar := Or.inl (by omega)
  simp only [show hexVal '0' = some 0 from rfl, hn]
  rw [dif_pos hv, charOfNatAux_toNat c hv]

lemma parseEsc_u (c : Char) (hc : c.toNat < 32) (rest3 : List Char) :
    parseEsc 'u' ('0' :: '0' :: hexDigChar (c.toNat / 16) :: hexDigChar (c.toNat % 16) ::
      rest3) = some (c, rest3) := by
  rw [show parseEsc 'u' ('0' :: '0' :: hexDigChar (c.toNat / 16) ::
      hexDigChar (c.toNat % 16) :: rest3) =
    hexQuad '0' '0' (hexDigChar (c.toNat / 16)) (hexDigChar (c.toNat % 16)) rest3 from rfl]
  exact hexQuad_eval c hc rest3

lemma parseStrBodyF_cons (f : Nat) (c : Char) (rest : List Char) :
    parseStrBodyF (f + 1) (c :: rest) =
      if c = '\x22' then some ([], rest)
      else if c = '\\' then
        match rest with
        | [] => none
        | e :: rest2 => escStep f (parseEsc e rest2)
      else if c.toNat < 32 then none
      else (parseStrBodyF f rest).map (fun p => (c :: p.1, p.2)) := rfl

lemma parseStrBodyF_escStr (l : List Char) (f : Nat) (rest : List Char)
    (hf : l.length < f) :
    parseStrBodyF f (escStr l ++ ('\x22' :: rest)) = some (l, rest) := by
  induction l generalizing f with
  | nil =>
    obtain ⟨f2, rfl⟩ : ∃ f2, f = f2 + 1 := ⟨f - 1, by omega⟩
    rw [show escStr [] ++ ('\x22' :: rest) = '\x22' :: rest from rfl]
    rw [parseStrBodyF_cons, if_pos rfl]
  | cons c tl ih =>
    obtain ⟨f2, rfl⟩ : ∃ f2, f = f2 + 1 := ⟨f - 1, by omega⟩
    have htl : tl.length < f2 := by
      simp only [List.length_cons] at hf
      omega
    have ihtl := ih f2 htl
    show parseStrBodyF (f2 + 1) ((escChar c ++ escStr tl) ++ ('\x22' :: rest)) = _
    rw [List.append_assoc]
    unfold escChar
    by_cases h1 : c = '\x22'
    · subst h1
      rw [if_pos rfl]
      show escStep f2 (parseEsc '\x22' (escStr tl ++ ('\x22' :: rest))) = _
      rw [show parseEsc '\x22' (escStr tl ++ ('\x22' :: rest)) =
        some ('\x22', escStr tl ++ ('\x22' :: rest)) from rfl]
      show (parseStrBodyF f2 (escStr tl ++ ('\x22' :: rest))).map
        (fun p => ('\x22' :: p.1, p.2)) = _
      rw [ihtl]
      rfl
    · rw [if_neg h1]
      by_cases h2 : c = '\\'
      · subst h2
        rw [if_pos rfl]
        show escStep f2 (parseEsc '\\' (escStr tl ++ ('\x22' :: rest))) = _
        rw [show parseEsc '\\' (escStr tl ++ ('\x22' :: rest)) =
          some ('\\', escStr tl ++ ('\x22' :: rest)) from rfl]
        show (parseStrBodyF f2 (escStr tl ++ ('\x22' :: rest))).map
          (fun p => ('\\' :: p.1, p.2)) = _
        rw [ihtl]
        rfl
      · rw [if_neg h2]
        by_cases h3 : c = '\x08'
        · subst h3
          rw [if_pos rfl]
          show escStep f2 (parseEsc 'b' (escStr tl ++ ('\x22' :: rest))) = _
          rw [show parseEsc 'b' (escStr tl ++ ('\x22' :: rest)) =
            some ('\x08', escStr tl ++ ('\x22' :: rest)) from rfl]
          show (parseStrBodyF f2 (escStr tl ++ ('\x22' :: rest))).map
            (fun p => ('\x08' :: p.1, p.2)) = _
          rw [ihtl]
          rfl
        · rw [if_neg h3]
          by_cases h4 : c = '\x09'
          · subst h4
            rw [if_pos rfl]
            show escStep f2 (parseEsc 't' (escStr tl ++ ('\x22' :: rest))) = _
            rw [show parseEsc 't' (escStr tl ++ ('\x22' :: rest)) =
              some ('\x09', escStr tl ++ ('\x22' :: rest)) from rfl]
            show (parseStrBodyF f2 (escStr tl ++ ('\x22' :: rest))).map
              (fun p => ('\x09' :: p.1, p.2)) = _
            rw [ihtl]
            rfl
          · rw [if_neg h4]
            by_cases h5 : c = '\x0a'
            · subst h5
              rw [if_pos rfl]
              show escStep f2 (parseEsc 'n' (escStr tl ++ ('\x22' :: rest))) = _
              rw [show parseEsc 'n' (escStr tl ++ ('\x22' :: rest)) =
                some ('\x0a', escStr tl ++ ('\x22' :: rest)) from rfl]
              show (parseStrBodyF f2 (escStr tl ++ ('\x22' :: rest))).map
                (fun p => ('\x0a' :: p.1, p.2)) = _
              rw [ihtl]
              rfl
            · rw [if_neg h5]
              by_cases h6 : c = '\x0c'
              · subst h6
                rw [if_pos rfl]
                show escStep f2 (parseEsc 'f' (escStr tl ++ ('\x22' :: rest))) = _
                rw [show parseEsc 'f' (escStr tl ++ ('\x22' :: rest)) =
                  some ('\x0c', escStr tl ++ ('\x22' :: rest)) from rfl]
                show (parseStrBodyF f2 (escStr tl ++ ('\x22' :: rest))).map
                  (fun p => ('\x0c' :: p.1, p.2)) = _
                rw [ihtl]
                rfl
              · rw [if_neg h6]
                by_cases h7 : c = '\x0d'
                · subst h7
                  rw [if_pos rfl]
                  show escStep f2 (parseEsc 'r' (escStr tl ++ ('\x22' :: rest))) = _
                  rw [show parseEsc 'r' (escStr tl ++ ('\x22' :: rest)) =
                    some ('\x0d', escStr tl ++ ('\x22' :: rest)) from rfl]
                  show (parseStrBodyF f2 (escStr tl ++ ('\x22' :: rest))).map
                    (fun p => ('\x0d' :: p.1, p.2)) = _
                  rw [ihtl]
                  rfl
                · rw [if_neg h7]
                  by_cases h8 : c.toNat < 32
                  · rw [if_pos h8]
                    show escStep f2 (parseEsc 'u' ('0' :: '0' ::
                      hexDigChar (c.toNat / 16) :: hexDigChar (c.toNat % 16) ::
                        (escStr tl ++ ('\x22' :: rest)))) = _
                    rw [parseEsc_u c h8 (escStr tl ++ ('\x22' :: rest))]
                    show (parseStrBodyF f2 (escStr tl ++ ('\x22' :: rest))).map
                      (fun p => (c :: p.1, p.2)) = _
                    rw [ihtl]
                    rfl
                  · rw [if_neg h8]
                    show parseStrBodyF (f2 + 1)
                      (c :: (escStr tl ++ ('\x22' :: rest))) = _
                    rw [parseStrBodyF_cons, if_neg h1, if_neg h2, if_neg h8, ihtl]
                    rfl

lemma stringMk_data (s : String) : String.mk s.data = s := rfl

lemma isDigit_ne_special (c : Char) (h : c.isDigit = true) :
    c ≠ 'n' ∧ c ≠ 't' ∧ c ≠ 'f' ∧ c ≠ '\x22' ∧ c ≠ '[' ∧ c ≠ '\x7b' ∧ c ≠ '-' := by
  refine ⟨?_, ?_, ?_, ?_, ?_, ?_, ?_⟩ <;>
    (intro he; rw [he] at h; exact absurd h (by decide))

lemma escChar_length_pos (c : Char) : 0 < (escChar c).length := by
  unfold escChar
  split_ifs <;> simp

lemma escStr_length_ge (l : List Char) : l.length ≤ (escStr l).length := by
  induction l with
  | nil => simp [escStr]
  | cons c tl ih =>
    show (c :: tl).length ≤ (escChar c ++ escStr tl).length
    simp only [List.length_cons, List.length_append]
    have := escChar_length_pos c
    omega

lemma serChars_head_spec (v : JVal) :
    ∃ c cs, serChars v = c :: cs ∧ c ≠ ']' ∧ c ≠ '\x7d' := by
  cases v with
  | null => exact ⟨'n', _, rfl, by decide, by decide⟩
  | bool b => cases b with
    | true => exact ⟨'t', _, rfl, by decide, by decide⟩
    | false => exact ⟨'f', _, rfl, by decide, by decide⟩
  | num n =>
    show ∃ c cs, intChars n = c :: cs ∧ c ≠ ']' ∧ c ≠ '\x7d'
    unfold intChars
    by_cases hn : n < 0
    · rw [if_pos hn]
      exact ⟨'-', _, rfl, by decide, by decide⟩
    · rw [if_neg hn]
      obtain ⟨hd, hne, _⟩ := natChars_spec n.toNat
      cases h : natChars n.toNat with
      | nil => exact absurd h hne
      | cons c cs =>
        have hc : c.isDigit = true := hd c (h ▸ List.mem_cons_self _ _)
        refine ⟨c, cs, rfl, ?_, ?_⟩ <;>
          (intro he; rw [he] at hc; exact absurd hc (by decide))
  | str s => exact ⟨'\x22', _, rfl, by decide, by decide⟩
  | arr a => cases a with
    | nil => exact ⟨'[', _, rfl, by decide, by decide⟩
    | cons v tl => exact ⟨'[', _, rfl, by decide, by decide⟩
  | obj o => cases o with
    | nil => exact ⟨'\x7b', _, rfl, by decide, by decide⟩
    | cons k v tl => exact ⟨'\x7b', _, rfl, by decide, by decide⟩

lemma serChars_length_pos (v : JVal) : 0 < (serChars v).length := by
  obtain ⟨c, cs, h, _, _⟩ := serChars_head_spec v
  rw [h]
  simp

lemma parseVal_cons (f : Nat) (c : Char) (r : List Char) :
    parseVal (f + 1) (c :: r) =
      (if c = 'n' then
        if r.take 3 = ['u', 'l', 'l'] then some (JVal.null, r.drop 3) else none
      else if c = 't' then
        if r.take 3 = ['r', 'u', 'e'] then some (JVal.bool true, r.drop 3) else none
      else if c = 'f' then
        if r.take 4 = ['a', 'l', 's', 'e'] then some (JVal.bool false, r.drop 4) else none
      else if c = '\x22' then
        (parseStrBodyF f r).map (fun p => (JVal.str (String.mk p.1), p.2))
      else if c = '[' then
        if r.head? = some ']' then some (JVal.arr JArr.nil, r.tail)
        else (parseArrItems f r).map (fun p => (JVal.arr p.1, p.2))
      else if c = '\x7b' then
        if r.head? = some '\x7d' then some (JVal.obj JObj.nil, r.tail)
        else (parseObjItems f r).map (fun p => (JVal.obj p.1, p.2))
      else if c = '-' then
        let ds := r.takeWhile Char.isDigit
        if ds.isEmpty then none
        else some (JVal.num (-(valOf ds : Int)), r.dropWhile Char.isDigit)
      else if c.isDigit then
        some (JVal.num (valOf ((c :: r).takeWhile Char.isDigit) : Int),
          (c :: r).dropWhile Char.isDigit)
      else none) := rfl

lemma parseArrItems_succ (f : Nat) (l : List Char) :
    parseArrItems (f + 1) l = arrStep f (parseVal f l) := rfl

lemma parseObjItems_cons (f : Nat) (c : Char) (r : List Char) :
    parseObjItems (f + 1) (c :: r) =
      if c = '\x22' then objStepKey f (parseStrBodyF f r) else none := rfl

theorem parse_serChars (f : Nat) :
    (∀ v rest, (serChars v).length ≤ f → headFails Char.isDigit rest →
      parseVal f (serChars v ++ rest) = some (v, rest)) ∧
    (∀ v tl rest, (serArr (JArr.cons v tl)).length < f →
      parseArrItems f (serArr (JArr.cons v tl) ++ (']' :: rest)) =
        some (JArr.cons v tl, rest)) ∧
    (∀ k v tl rest, (serObj (JObj.cons k v tl)).length < f →
      parseObjItems f (serObj (JObj.cons k v tl) ++ ('\x7d' :: rest)) =
        some (JObj.cons k v tl, rest)) := by
  induction f with
  | zero =>
    refine ⟨?_, ?_, ?_⟩
    · intro v rest hle _
      have := serChars_length_pos v
      omega
    · intro v tl rest hlt
      omega
    · intro k v tl rest hlt
      omega
  | succ f ih =>
    obtain ⟨ih1, ih2, ih3⟩ := ih
    refine ⟨?_, ?_, ?_⟩
    · -- parseVal on a serialized value
      intro v rest hle hrest
      cases v with
      | null => rfl
      | bool b => cases b <;> rfl
      | num n =>
        show parseVal (f + 1) (intChars n ++ rest) = _
        unfold intChars
        by_cases hn : n < 0
        · rw [if_pos hn]
          obtain ⟨hdig, hne, hval⟩ := natChars_spec n.natAbs
          have htw := takeWhile_append_all Char.isDigit (natChars n.natAbs) rest hdig hrest
          show parseVal (f + 1) ('-' :: (natChars n.natAbs ++ rest)) = _
          rw [parseVal_cons, if_neg (by decide), if_neg (by decide), if_neg (by decide),
            if_neg (by decide), if_neg (by decide), if_neg (by decide), if_pos rfl]
          simp only [htw.1, htw.2]
          rw [if_neg (by simpa [List.isEmpty_iff] using hne), hval]
          have : (-(n.natAbs : Int)) = n := by omega
          rw [this]
        · rw [if_neg hn]
          obtain ⟨hdig, hne, hval⟩ := natChars_spec n.toNat
          cases hnc : natChars n.toNat with
          | nil => exact absurd hnc hne
          | cons c cs =>
            have hc : c.isDigit = true := hdig c (hnc ▸ List.mem_cons_self _ _)
            obtain ⟨d1, d2, d3, d4, d5, d6, d7⟩ := isDigit_ne_special c hc
            show parseVal (f + 1) ((c :: cs) ++ rest) = _
            rw [List.cons_append, parseVal_cons, if_neg d1, if_neg d2, if_neg d3,
              if_neg d4, if_neg d5, if_neg d6, if_neg d7, if_pos hc]
            have hrw : c :: (cs ++ rest) = natChars n.toNat ++ rest := by
              rw [hnc, List.cons_append]
            rw [hrw]
            have htw := takeWhile_append_all Char.isDigit (natChars n.toNat) rest hdig hrest
            rw [htw.1, htw.2, hval]
            have : ((n.toNat : Int)) = n := by omega
            rw [this]
      | str s =>
        show parseVal (f + 1) (('\x22' :: (escStr s.data ++ ['\x22'])) ++ rest) = _
        rw [List.cons_append, List.append_assoc]
        rw [parseVal_cons, if_neg (by decide), if_neg (by decide), if_neg (by decide),
          if_pos rfl]
        have hlen : s.data.length < f := by
          have h1 := escStr_length_ge s.data
          simp only [serChars, List.length_cons, List.length_append,
            List.length_singleton] at hle
          omega
        rw [show ['\x22'] ++ rest = '\x22' :: rest from rfl,
          parseStrBodyF_escStr s.data f rest hlen]
        simp [stringMk_data]
      | arr a =>
        cases a with
        | nil => rfl
        | cons v tl =>
          show parseVal (f + 1) (('[' :: (serArr (JArr.cons v tl) ++ [']'])) ++ rest) = _
          rw [List.cons_append, List.append_assoc]
          rw [parseVal_cons, if_neg (by decide), if_neg (by decide), if_neg (by decide),
            if_neg (by decide), if_pos rfl]
          obtain ⟨c0, cs0, hsa, hc0, _⟩ : ∃ c0 cs0,
              serArr (JArr.cons v tl) = c0 :: cs0 ∧ c0 ≠ ']' ∧ c0 ≠ '\x7d' := by
            cases tl with
            | nil =>
              obtain ⟨c0, cs0, h, h1, h2⟩ := serChars_head_spec v
              exact ⟨c0, cs0, h, h1, h2⟩
            | cons w tl2 =>
              obtain ⟨c0, cs0, h, h1, h2⟩ := serChars_head_spec v
              exact ⟨c0, _, by rw [show serArr (JArr.cons v (JArr.cons w tl2)) =
                serChars v ++ ',' :: serArr (JArr.cons w tl2) from rfl, h,
                List.cons_append], h1, h2⟩
          rw [show [']'] ++ rest = ']' :: rest from rfl]
          rw [hsa, List.cons_append, List.head?_cons]
          rw [if_neg (by simp [hc0]), ← List.cons_append, ← hsa]
          have hlen : (serArr (JArr.cons v tl)).length < f := by
            simp only [serChars, List.length_cons, List.length_append,
              List.length_singleton] at hle
            omega
          rw [ih2 v tl rest hlen]
          rfl
      | obj o =>
        cases o with
        | nil => rfl
        | cons k v tl =>
          show parseVal (f + 1)
            (('\x7b' :: (serObj (JObj.cons k v tl) ++ ['\x7d'])) ++ rest) = _
          rw [List.cons_append, List.append_assoc]
          rw [parseVal_cons, if_neg (by decide), if_neg (by decide), if_neg (by decide),
            if_neg (by decide), if_neg (by decide), if_pos rfl]
          rw [show ['\x7d'] ++ rest = '\x7d' :: rest from rfl]
          obtain ⟨X, hX⟩ : ∃ X, serObj (JObj.cons k v tl) = '\x22' :: X := by
            cases tl with
            | nil =>
              exact ⟨_, by rw [show serObj (JObj.cons k v JObj.nil) =
                ('\x22' :: (escStr k.data ++ ['\x22', ':'])) ++ serChars v from rfl,
                List.cons_append]⟩
            | cons k2 v2 tl2 =>
              exact ⟨_, by rw [show serObj (JObj.cons k v (JObj.cons k2 v2 tl2)) =
                (('\x22' :: (escStr k.data ++ ['\x22', ':'])) ++ serChars v) ++
                  ',' :: serObj (JObj.cons k2 v2 tl2) from rfl,
                List.cons_append, List.cons_append]⟩
          rw [hX, List.cons_append, List.head?_cons, if_neg (by decide),
            ← List.cons_append, ← hX]
          have hlen : (serObj (JObj.cons k v tl)).length < f := by
            simp only [serChars, List.length_cons, List.length_append,
              List.length_singleton] at hle
            omega
          rw [ih3 k v tl rest hlen]
          rfl
    · -- parseArrItems on serialized items
      intro v tl rest hlt
      rw [parseArrItems_succ]
      cases tl with
      | nil =>
        show arrStep f (parseVal f (serChars v ++ (']' :: rest))) = _
        rw [ih1 v (']' :: rest) (by
            simp only [show serArr (JArr.cons v JArr.nil) = serChars v from rfl] at hlt
            omega)
          (headFails_cons _ _ _ (by decide))]
        rfl
      | cons w tl2 =>
        show arrStep f (parseVal f ((serChars v ++ ',' :: serArr (JArr.cons w tl2)) ++
          (']' :: rest))) = _
        rw [List.append_assoc, List.cons_append]
        simp only [show serArr (JArr.cons v (JArr.cons w tl2)) =
          serChars v ++ ',' :: serArr (JArr.cons w tl2) from rfl,
          List.length_append, List.length_cons] at hlt
        have hvpos := serChars_length_pos v
        have hapos : 0 < (serArr (JArr.cons w tl2)).length := by
          obtain ⟨c0, cs0, h0, _, _⟩ := serChars_head_spec w
          cases tl2 with
          | nil =>
            rw [show serArr (JArr.cons w JArr.nil) = serChars w from rfl, h0]
            simp
          | cons x tl3 =>
            rw [show serArr (JArr.cons w (JArr.cons x tl3)) =
              serChars w ++ ',' :: serArr (JArr.cons x tl3) from rfl]
            simp
        rw [ih1 v (',' :: (serArr (JArr.cons w tl2) ++ (']' :: rest)))
          (by omega) (headFails_cons _ _ _ (by decide))]
        rw [show arrStep f (some (v, ',' :: (serArr (JArr.cons w tl2) ++ (']' :: rest)))) =
          (parseArrItems f (serArr (JArr.cons w tl2) ++ (']' :: rest))).map
            (fun p => (JArr.cons v p.1, p.2)) from rfl]
        rw [ih2 w tl2 rest (by omega)]
        rfl
    · -- parseObjItems on serialized members
      intro k v tl rest hlt
      have hk := escStr_length_ge k.data
      have hvpos := serChars_length_pos v
      cases tl with
      | nil =>
        have hfull : serObj (JObj.cons k v JObj.nil) ++ ('\x7d' :: rest) =
            '\x22' :: (escStr k.data ++ ('\x22' :: (':' ::
              (serChars v ++ ('\x7d' :: rest))))) := by
          rw [show serObj (JObj.cons k v JObj.nil) =
            ('\x22' :: (escStr k.data ++ ['\x22', ':'])) ++ serChars v from rfl]
          simp [List.cons_append, List.append_assoc]
        simp only [show serObj (JObj.cons k v JObj.nil) =
          ('\x22' :: (escStr k.data ++ ['\x22', ':'])) ++ serChars v from rfl,
          List.length_append, List.length_cons, List.length_singleton] at hlt
        rw [hfull, parseObjItems_cons, if_pos rfl]
        rw [parseStrBodyF_escStr k.data f _ (by omega)]
        rw [show objStepKey f (some (k.data, ':' :: (serChars v ++ ('\x7d' :: rest)))) =
          objStepVal f k.data (parseVal f (serChars v ++ ('\x7d' :: rest))) from rfl]
        rw [ih1 v ('\x7d' :: rest) (by omega) (headFails_cons _ _ _ (by decide))]
        rw [show objStepVal f k.data (some (v, '\x7d' :: rest)) =
          some (JObj.cons (String.mk k.data) v JObj.nil, rest) from rfl]
      | cons k2 v2 tl2 =>
        have hfull : serObj (JObj.cons k v (JObj.cons k2 v2 tl2)) ++ ('\x7d' :: rest) =
            '\x22' :: (escStr k.data ++ ('\x22' :: (':' ::
              (serChars v ++ (',' :: (serObj (JObj.cons k2 v2 tl2) ++
                ('\x7d' :: rest))))))) := by
          rw [show serObj (JObj.cons k v (JObj.cons k2 v2 tl2)) =
            (('\x22' :: (escStr k.data ++ ['\x22', ':'])) ++ serChars v) ++
              ',' :: serObj (JObj.cons k2 v2 tl2) from rfl]
          simp [List.cons_append, List.append_assoc]
        simp only [show serObj (JObj.cons k v (JObj.cons k2 v2 tl2)) =
          (('\x22' :: (escStr k.data ++ ['\x22', ':'])) ++ serChars v) ++
            ',' :: serObj (JObj.cons k2 v2 tl2) from rfl,
          List.length_append, List.length_cons, List.length_singleton] at hlt
        rw [hfull, parseObjItems_cons, if_pos rfl]
        rw [parseStrBodyF_escStr k.data f _ (by omega)]
        rw [show objStepKey f (some (k.data, ':' :: (serChars v ++ (',' ::
            (serObj (JObj.cons k2 v2 tl2) ++ ('\x7d' :: rest)))))) =
          objStepVal f k.data (parseVal f (serChars v ++ (',' ::
            (serObj (JObj.cons k2 v2 tl2) ++ ('\x7d' :: rest))))) from rfl]
        rw [ih1 v (',' :: (serObj (JObj.cons k2 v2 tl2) ++ ('\x7d' :: rest)))
          (by omega) (headFails_cons _ _ _ (by decide))]
        rw [show objStepVal f k.data (some (v, ',' ::
            (serObj (JObj.cons k2 v2 tl2) ++ ('\x7d' :: rest)))) =
          (parseObjItems f (serObj (JObj.cons k2 v2 tl2) ++ ('\x7d' :: rest))).map
            (fun p => (JObj.cons (String.mk k.data) v p.1, p.2)) from rfl]
        rw [ih3 k2 v2 tl2 rest (by omega)]
        rfl

lemma jsonParse_serChars (v : JVal) : jsonParseChars (serChars v) = some v := by
  have h := (parse_serChars ((serChars v).length + 1)).1 v [] (by omega) (headFails_nil _)
  rw [List.append_nil] at h
  unfold jsonParseChars
  rw [h]

lemma attPred_eq_false_of_nsPred (c : Char) (h : nsPred c = true) : attPred c = false := by
  simp only [nsPred, Bool.and_eq_true, Bool.not_eq_true'] at h
  simp [attPred, h.2]

lemma isEmpty_eq_false_of_ne_nil (l : List Char) (h : l ≠ []) : l.isEmpty = false := by
  cases l with
  | nil => exact absurd rfl h
  | cons c tl => rfl

lemma dropWhile_of_headFails (p : Char → Bool) (l : List Char) (h : headFails p l) :
    l.dropWhile p = l := by
  cases l with
  | nil => rfl
  | cons c tl =>
    rw [List.dropWhile_cons, if_neg]
    rw [h c rfl]
    simp

lemma hp_ns_general (a : List Char) (c : Char) (t : List Char)
    (hne : a ≠ []) (hall : ∀ x ∈ a, nsPred x = true) (hc : nsPred c = false) :
    headerParse (a ++ c :: t) =
      Header.mk (String.mk (if a.head? = some '/' then a else '/' :: a))
        (t.dropWhile Char.isDigit) := by
  have hatt : headFails attPred (a ++ c :: t) := by
    cases a with
    | nil => exact absurd rfl hne
    | cons a0 atl =>
      rw [List.cons_append]
      exact headFails_cons _ _ _
        (attPred_eq_false_of_nsPred a0 (hall a0 (List.mem_cons_self _ _)))
  have h1 : (a ++ c :: t).takeWhile attPred = [] := by
    cases ht : a ++ c :: t with
    | nil => rfl
    | cons x xs =>
      rw [List.takeWhile_cons, if_neg]
      rw [hatt x (by rw [ht]; rfl)]
      simp
  have h2 : (a ++ c :: t).dropWhile attPred = a ++ c :: t :=
    dropWhile_of_headFails _ _ hatt
  have h3 := takeWhile_append_all nsPred a (c :: t) hall (headFails_cons _ _ _ hc)
  unfold headerParse headerAtt headerNs
  rw [h1, h2]
  rw [show parseU32 [] = none from rfl]
  rw [show (Option.getD (none : Option Nat) 0) = 0 from rfl]
  rw [if_neg (show ¬((0 : Nat) > 0) from by omega)]
  rw [h3.1, h3.2]
  rw [isEmpty_eq_false_of_ne_nil a hne]
  rw [if_neg (show ¬(false = true) from by simp)]
  rfl

lemma hp_payload (payload : List Char)
    (h : payload = [] ∨ payload.head? = some '\x7b' ∨ payload.head? = some '[') :
    headerParse payload = Header.mk "/" payload := by
  rcases h with h | h | h
  · rw [h]
    rfl
  · cases payload with
    | nil => simp at h
    | cons c tl =>
      simp only [List.head?_cons, Option.some.injEq] at h
      rw [h]
      rfl
  · cases payload with
    | nil => simp at h
    | cons c tl =>
      simp only [List.head?_cons, Option.some.injEq] at h
      rw [h]
      rfl

lemma hp_ns (nsl : List Char) (payload : List Char)
    (hne : nsl ≠ []) (hall : ∀ x ∈ nsl, nsPred x = true) (hhead : nsl.head? = some '/')
    (hpay : payload = [] ∨ payload.head? = some '\x7b' ∨ payload.head? = some '[') :
    headerParse (nsl ++ ',' :: payload) = Header.mk (String.mk nsl) payload := by
  rw [hp_ns_general nsl ',' payload hne hall (by decide), if_pos hhead]
  have hdw : payload.dropWhile Char.isDigit = payload := by
    apply dropWhile_of_headFails
    rcases hpay with h | h | h
    · rw [h]; exact headFails_nil _
    · intro d hd
      rw [hd] at h
      simp only [Option.some.injEq] at h
      rw [h]; rfl
    · intro d hd
      rw [hd] at h
      simp only [Option.some.injEq] at h
      rw [h]; rfl
  rw [hdw]

lemma validNs_spec (ns : String) (h : validNs ns = true) :
    ns.data ≠ [] ∧ ns.data.head? = some '/' ∧ ∀ c ∈ ns.data, nsPred c = true := by
  simp only [validNs, Bool.and_eq_true, List.all_eq_true, decide_eq_true_eq] at h
  refine ⟨?_, h.1, fun c hc => h.2 c hc⟩
  intro hnil
  rw [hnil] at h
  simp at h

lemma roundTrip_eq (p : Packet JVal) (s : String) (h : encode p = EncodeOutcome.ok s) :
    roundTrip p = decode s := by
  unfold roundTrip
  rw [h]

lemma decode_mk (c : Char) (l : List Char) :
    decode (String.mk (c :: l)) = dispatch c (headerParse l) := rfl

lemma dispatch0_ser (v : JVal) (hne : (serChars v).isEmpty = false) (ns : String) :
    dispatch '0' (Header.mk ns (serChars v)) =
      DecodeOutcome.ok (Packet.mk (PacketData.Connect (some v)) ns) := by
  unfold dispatch
  rw [if_pos rfl]
  show (match deserialize_packet (serChars v) with
    | Except.ok d => DecodeOutcome.ok (Packet.mk (PacketData.Connect d) ns)
    | Except.error e => DecodeOutcome.err e) = _
  unfold deserialize_packet
  rw [hne, if_neg (show ¬(false = true) from by simp), jsonParse_serChars v]

lemma dispatch2_ser (e : String) (d : JVal) (ns : String) :
    dispatch '2' (Header.mk ns
        (serChars (JVal.arr (JArr.cons (JVal.str e) (JArr.cons d JArr.nil))))) =
      DecodeOutcome.ok (Packet.mk
        (PacketData.Event e (JVal.arr (JArr.cons d JArr.nil))) ns) := by
  unfold dispatch
  rw [if_neg (by decide), if_neg (by decide), if_pos rfl]
  show (match deserialize_event_packet
      (serChars (JVal.arr (JArr.cons (JVal.str e) (JArr.cons d JArr.nil)))) with
    | Except.ok (e, payload) =>
      DecodeOutcome.ok (Packet.mk (PacketData.Event e payload) ns)
    | Except.error er => DecodeOutcome.err er) = _
  unfold deserialize_event_packet
  rw [jsonParse_serChars]

lemma dispatch4_ser (m : String) (ns : String) :
    dispatch '4' (Header.mk ns
        (serChars (JVal.obj (JObj.cons "message" (JVal.str m) JObj.nil)))) =
      DecodeOutcome.ok (Packet.mk (PacketData.ConnectError (ConnectErrorPacket.mk m)) ns) := by
  unfold dispatch
  rw [if_neg (by decide), if_neg (by decide), if_neg (by decide), if_neg (by decide),
    if_pos rfl]
  show (match deserialize_packet
      (serChars (JVal.obj (JObj.cons "message" (JVal.str m) JObj.nil))) with
    | Except.ok (some v) =>
      (match connectErrorOfJson v with
       | some ce => DecodeOutcome.ok (Packet.mk (PacketData.ConnectError ce) ns)
       | none => DecodeOutcome.err PError.Serde)
    | Except.ok none => DecodeOutcome.err PError.InvalidPacketType
    | Except.error e => DecodeOutcome.err e) = _
  unfold deserialize_packet
  rw [show (serChars (JVal.obj (JObj.cons "message" (JVal.str m) JObj.nil))).isEmpty =
    false from rfl]
  rw [if_neg (show ¬(false = true) from by simp), jsonParse_serChars]
  rfl

/-! ### Claim theorems for the codec -/

/-- C3 amended: for every namespace accepted by the decode grammar (leading
slash, no comma, brace, bracket or digit characters), decoding the encoding
reproduces Connect-without-payload, Disconnect, Connect-with-object-payload
and ConnectError packets exactly; for Event packets the namespace and
discriminant are reproduced but the payload comes back wrapped in a
singleton array (encode serializes the tuple `(event, data)` while decode
collects every element after the event name into a fresh array). -/
theorem c3_roundtrip_amended (ns : String) (hns : validNs ns = true) :
    roundTrip (Packet.mk (PacketData.Connect none) ns) =
      DecodeOutcome.ok (Packet.mk (PacketData.Connect none) ns) ∧
    roundTrip (Packet.mk PacketData.Disconnect ns) =
      DecodeOutcome.ok (Packet.mk PacketData.Disconnect ns) ∧
    (∀ o : JObj, roundTrip (Packet.mk (PacketData.Connect (some (JVal.obj o))) ns) =
      DecodeOutcome.ok (Packet.mk (PacketData.Connect (some (JVal.obj o))) ns)) ∧
    (∀ m : String, roundTrip (Packet.mk (PacketData.ConnectError (ConnectErrorPacket.mk m)) ns) =
      DecodeOutcome.ok (Packet.mk (PacketData.ConnectError (ConnectErrorPacket.mk m)) ns)) ∧
    (∀ (e : String) (d : JVal), roundTrip (Packet.mk (PacketData.Event e d) ns) =
      DecodeOutcome.ok (Packet.mk
        (PacketData.Event e (JVal.arr (JArr.cons d JArr.nil))) ns)) := by
  obtain ⟨hne, hhead, hall⟩ := validNs_spec ns hns
  by_cases hroot : ns = "/"
  · subst hroot
    refine ⟨rfl, rfl, ?_, ?_, ?_⟩
    · intro o
      rw [roundTrip_eq (Packet.mk (PacketData.Connect (some (JVal.obj o))) "/")
        (String.mk ('0' :: serChars (JVal.obj o))) rfl, decode_mk]
      rw [hp_payload (serChars (JVal.obj o)) (Or.inr (Or.inl (by cases o <;> rfl)))]
      exact dispatch0_ser (JVal.obj o) (by cases o <;> rfl) "/"
    · intro m
      rw [roundTrip_eq (Packet.mk (PacketData.ConnectError (ConnectErrorPacket.mk m)) "/")
        (String.mk ('4' :: serChars
          (JVal.obj (JObj.cons "message" (JVal.str m) JObj.nil)))) rfl, decode_mk]
      rw [hp_payload (serChars (JVal.obj (JObj.cons "message" (JVal.str m) JObj.nil)))
        (Or.inr (Or.inl rfl))]
      exact dispatch4_ser m "/"
    · intro e d
      rw [roundTrip_eq (Packet.mk (PacketData.Event e d) "/")
        (String.mk ('2' :: serChars
          (JVal.arr (JArr.cons (JVal.str e) (JArr.cons d JArr.nil))))) rfl, decode_mk]
      rw [hp_payload (serChars (JVal.arr (JArr.cons (JVal.str e) (JArr.cons d JArr.nil))))
        (Or.inr (Or.inr rfl))]
      exact dispatch2_ser e d "/"
  · have hne2 : ¬(ns = "") := by
      intro h
      rw [h] at hne
      exact hne rfl
    refine ⟨?_, ?_, ?_, ?_, ?_⟩
    · have henc : encode (Packet.mk (PacketData.Connect none) ns) =
          EncodeOutcome.ok (String.mk ('0' :: (ns.data ++ (',' :: [])))) := by
        unfold encode
        rw [if_pos ⟨hne2, hroot⟩]
        simp only [List.cons_append, List.append_assoc]
        rfl
      rw [roundTrip_eq _ _ henc, decode_mk]
      rw [hp_ns ns.data [] hne hall hhead (Or.inl rfl)]
      rfl
    · have henc : encode (Packet.mk PacketData.Disconnect ns) =
          EncodeOutcome.ok (String.mk ('1' :: (ns.data ++ (',' :: [])))) := by
        unfold encode
        rw [if_pos ⟨hne2, hroot⟩]
        simp only [List.cons_append, List.append_assoc]
        rfl
      rw [roundTrip_eq _ _ henc, decode_mk]
      rw [hp_ns ns.data [] hne hall hhead (Or.inl rfl)]
      rfl
    · intro o
      have henc : encode (Packet.mk (PacketData.Connect (some (JVal.obj o))) ns) =
          EncodeOutcome.ok (String.mk ('0' :: (ns.data ++ (',' ::
            serChars (JVal.obj o))))) := by
        unfold encode
        rw [if_pos ⟨hne2, hroot⟩]
        simp only [List.cons_append, List.append_assoc]
        rfl
      rw [roundTrip_eq _ _ henc, decode_mk]
      rw [hp_ns ns.data _ hne hall hhead (Or.inr (Or.inl (by cases o <;> rfl)))]
      exact dispatch0_ser (JVal.obj o) (by cases o <;> rfl) ns
    · intro m
      have henc : encode (Packet.mk (PacketData.ConnectError (ConnectErrorPacket.mk m)) ns) =
          EncodeOutcome.ok (String.mk ('4' :: (ns.data ++ (',' ::
            serChars (JVal.obj (JObj.cons "message" (JVal.str m) JObj.nil)))))) := by
        unfold encode
        rw [if_pos ⟨hne2, hroot⟩]
        simp only [List.cons_append, List.append_assoc]
        rfl
      rw [roundTrip_eq _ _ henc, decode_mk]
      rw [hp_ns ns.data (serChars (JVal.obj (JObj.cons "message" (JVal.str m) JObj.nil)))
        hne hall hhead (Or.inr (Or.inl rfl))]
      exact dispatch4_ser m ns
    · intro e d
      have henc : encode (Packet.mk (PacketData.Event e d) ns) =
          EncodeOutcome.ok (String.mk ('2' :: (ns.data ++ (',' ::
            serChars (JVal.arr (JArr.cons (JVal.str e) (JArr.cons d JArr.nil))))))) := by
        unfold encode
        rw [if_pos ⟨hne2, hroot⟩]
        simp only [List.cons_append, List.append_assoc]
        rfl
      rw [roundTrip_eq _ _ henc, decode_mk]
      rw [hp_ns ns.data
        (serChars (JVal.arr (JArr.cons (JVal.str e) (JArr.cons d JArr.nil))))
        hne hall hhead (Or.inr (Or.inr rfl))]
      exact dispatch2_ser e d ns

/-- C3 counterexample: the Event packet with name "foo" and payload `1` on
the root namespace does not decode back to itself — the payload comes back
as the singleton array `[1]` — refuting the claim that decoding the encoded
form reproduces the original packet for every kind supporting both
directions. -/
theorem c3_event_roundtrip_counterexample :
    roundTrip (Packet.mk (PacketData.Event "foo" (JVal.num 1)) "/") ≠
      DecodeOutcome.ok (Packet.mk (PacketData.Event "foo" (JVal.num 1)) "/") ∧
    roundTrip (Packet.mk (PacketData.Event "foo" (JVal.num 1)) "/") =
      DecodeOutcome.ok (Packet.mk
        (PacketData.Event "foo" (JVal.arr (JArr.cons (JVal.num 1) JArr.nil))) "/") := by
  refine ⟨?_, rfl⟩
  intro h
  have h1 : DecodeOutcome.ok (Packet.mk
      (PacketData.Event "foo" (JVal.arr (JArr.cons (JVal.num 1) JArr.nil))) "/") =
      DecodeOutcome.ok (Packet.mk (PacketData.Event "foo" (JVal.num 1)) "/") :=
    (show roundTrip (Packet.mk (PacketData.Event "foo" (JVal.num 1)) "/") =
      DecodeOutcome.ok (Packet.mk
        (PacketData.Event "foo" (JVal.arr (JArr.cons (JVal.num 1) JArr.nil))) "/")
      from rfl).symm.trans h
  injection h1 with h2
  injection h2 with h3 h4
  injection h3 with h5 h6
  exact JVal.noConfusion h6

/-- C5 amended: decoding any input whose type digit is 3, 5 or 6 reaches the
`todo!()` arm and crashes with the "not yet implemented" message: the
capability gap aborts the decode call — it is distinct from the returned
grammar errors, but it is not an error value signalled to the caller. -/
theorem c5_unimplemented_decode_panics (s : String) (c : Char) (rest : List Char)
    (hdata : s.data = c :: rest) (hc : c = '3' ∨ c = '5' ∨ c = '6') :
    decode s = DecodeOutcome.panicked "not yet implemented" := by
  unfold decode
  rw [hdata]
  rcases hc with hc | hc | hc <;> (subst hc; rfl)

/-- C5 witness: the amended theorem applied at the inputs "3", "561-foo"
and "6". -/
theorem c5_unimplemented_decode_panics_witness :
    ("3" : String).data = '3' :: [] ∧
    decode "3" = DecodeOutcome.panicked "not yet implemented" ∧
    decode "561-foo" = DecodeOutcome.panicked "not yet implemented" ∧
    decode "6" = DecodeOutcome.panicked "not yet implemented" :=
  ⟨rfl, c5_unimplemented_decode_panics "3" '3' [] rfl (Or.inl rfl),
    c5_unimplemented_decode_panics "561-foo" '5' "61-foo".data rfl (Or.inr (Or.inl rfl)),
    c5_unimplemented_decode_panics "6" '6' [] rfl (Or.inr (Or.inr rfl))⟩

/-- C5 counterexample: decoding "3" aborts in the `todo!()` arm; the result
is not a returned error value of any kind, refuting the claim that an
"unimplemented" failure is signalled to the caller. -/
theorem c5_unimplemented_decode_counterexample :
    decode "3" = DecodeOutcome.panicked "not yet implemented" ∧
    (decode "3" ≠ DecodeOutcome.err PError.InvalidPacketType) ∧
    (decode "3" ≠ DecodeOutcome.err PError.Serde) :=
  ⟨rfl, fun h => DecodeOutcome.noConfusion h, fun h => DecodeOutcome.noConfusion h⟩

/-- C8: decoding fails entirely with the invalid-packet-type error for
every input whose first character is not a digit 0-6, and with the
invalid-event-name error for every type-2 input whose payload region parses
as a JSON value that is not an array with a string first element. -/
theorem c8_grammar_errors :
    (∀ (s : String) (c : Char) (rest : List Char), s.data = c :: rest →
      c ∉ ['0', '1', '2', '3', '4', '5', '6'] →
      decode s = DecodeOutcome.err PError.InvalidPacketType) ∧
    (∀ (s : String) (rest : List Char) (v : JVal), s.data = '2' :: rest →
      jsonParseChars (headerParse rest).data = some v → eventShape v = false →
      decode s = DecodeOutcome.err PError.InvalidEventName) := by
  constructor
  · intro s c rest hdata hc
    have h0 : ¬(c = '0') := fun he => hc (by rw [he]; decide)
    have h1 : ¬(c = '1') := fun he => hc (by rw [he]; decide)
    have h2 : ¬(c = '2') := fun he => hc (by rw [he]; decide)
    have h3 : ¬(c = '3') := fun he => hc (by rw [he]; decide)
    have h4 : ¬(c = '4') := fun he => hc (by rw [he]; decide)
    have h5 : ¬(c = '5') := fun he => hc (by rw [he]; decide)
    have h6 : ¬(c = '6') := fun he => hc (by rw [he]; decide)
    unfold decode
    rw [hdata]
    show dispatch c (headerParse rest) = _
    unfold dispatch
    rw [if_neg h0, if_neg h1, if_neg h2, if_neg h3, if_neg h4, if_neg h5, if_neg h6]
  · intro s rest v hdata hjson hshape
    unfold decode
    rw [hdata]
    show dispatch '2' (headerParse rest) = _
    unfold dispatch
    rw [if_neg (by decide), if_neg (by decide), if_pos rfl]
    unfold deserialize_event_packet
    rw [hjson]
    cases v with
    | null => rfl
    | bool b => rfl
    | num n => rfl
    | str s2 => rfl
    | obj o => rfl
    | arr a =>
      cases a with
      | nil => rfl
      | cons hd tl =>
        cases hd with
        | str e => simp [eventShape] at hshape
        | null => rfl
        | bool b => rfl
        | num n => rfl
        | arr a2 => rfl
        | obj o2 => rfl

/-- C8 witness: the theorem applied at "9abc" and at "2\x7b\x7d". -/
theorem c8_grammar_errors_witness :
    decode "9abc" = DecodeOutcome.err PError.InvalidPacketType ∧
    decode "2\x7b\x7d" = DecodeOutcome.err PError.InvalidEventName :=
  ⟨c8_grammar_errors.1 "9abc" '9' "abc".data rfl (by decide),
    c8_grammar_errors.2 "2\x7b\x7d" "\x7b\x7d".data (JVal.obj JObj.nil) rfl rfl rfl⟩

/-- C10: after a non-empty namespace run the decoder drops exactly one
character whatever it is — the header parse result is identical for any two
non-namespace characters following the run — so in `2/chat[\x22foo\x22]`
the bracket is swallowed as if it were the comma separator and the
remaining payload fails JSON parsing (a serde error), while
`2/chat,[\x22foo\x22]` decodes to the Event packet. -/
theorem c10_ns_separator_swallowed :
    (∀ (a : List Char) (c1 c2 : Char) (t : List Char), a ≠ [] →
      (∀ x ∈ a, nsPred x = true) → nsPred c1 = false → nsPred c2 = false →
      headerParse (a ++ c1 :: t) = headerParse (a ++ c2 :: t)) ∧
    decode "2/chat[\x22foo\x22]" = DecodeOutcome.err PError.Serde ∧
    decode "2/chat,[\x22foo\x22]" =
      DecodeOutcome.ok (Packet.mk (PacketData.Event "foo" (JVal.arr JArr.nil)) "/chat") := by
  refine ⟨?_, rfl, rfl⟩
  intro a c1 c2 t hne hall h1 h2
  rw [hp_ns_general a c1 t hne hall h1, hp_ns_general a c2 t hne hall h2]

/-- C10 witness: the header-parse equality applied at the namespace run
`/chat` with the bracket and the comma as following characters. -/
theorem c10_ns_separator_swallowed_witness :
    ("/chat".data ≠ ([] : List Char)) ∧ nsPred '[' = false ∧ nsPred ',' = false ∧
    headerParse ("/chat".data ++ '[' :: "\x22foo\x22]".data) =
      headerParse ("/chat".data ++ ',' :: "\x22foo\x22]".data) :=
  ⟨by decide, by decide, by decide,
    c10_ns_separator_swallowed.1 "/chat".data '[' ',' "\x22foo\x22]".data
      (by decide) (by decide) (by decide) (by decide)⟩

/-- C3 witness: the amended round-trip theorem applied at the namespace
"/chat" for an Event, a Disconnect and a ConnectError packet. -/
theorem c3_roundtrip_amended_witness :
    validNs "/chat" = true ∧
    roundTrip (Packet.mk (PacketData.Event "foo" (JVal.num 1)) "/chat") =
      DecodeOutcome.ok (Packet.mk
        (PacketData.Event "foo" (JVal.arr (JArr.cons (JVal.num 1) JArr.nil))) "/chat") ∧
    roundTrip (Packet.mk PacketData.Disconnect "/chat") =
      DecodeOutcome.ok (Packet.mk PacketData.Disconnect "/chat") ∧
    roundTrip (Packet.mk (PacketData.ConnectError (ConnectErrorPacket.mk "err")) "/chat") =
      DecodeOutcome.ok (Packet.mk
        (PacketData.ConnectError (ConnectErrorPacket.mk "err")) "/chat") :=
  ⟨by decide,
    (c3_roundtrip_amended "/chat" (by decide)).2.2.2.2 "foo" (JVal.num 1),
    (c3_roundtrip_amended "/chat" (by decide)).2.1,
    (c3_roundtrip_amended "/chat" (by decide)).2.2.2.1 "err"⟩

end Socketioxide
